import Mathlib

/-!
Verification of the score-aggregation program in src/scores_4.py.

The program is a linear pipeline: load CSV rows, group scores by
participant name, compute per-participant average/max/min, find the
global extremes of the averages, and render a fixed-width table in which
the rows attaining the extreme averages are emphasised.

Embedding conventions:
  - a CSV row as produced by csv.DictReader is an association list from
    field name to raw string value;
  - the file system is a value of type Option (List Row): none models a
    missing input file (open raises FileNotFoundError), some rows models
    a readable file whose parsed rows are given;
  - Python exceptions become the error type Err, threaded with Except;
  - Python float arithmetic on the averages is embedded as exact
    rational arithmetic.  All sums are integer sums (exact in Python as
    well, since Python ints are unbounded); only the final division
    sum/len is a float operation in Python, so the rational value is the
    exact quantity the Python float approximates;
  - console output is the list of strings passed to print, in order;
  - the colorama escape sequences Fore.RED + Style.BRIGHT,
    Fore.BLUE + Style.BRIGHT and Style.RESET_ALL are abstract string
    parameters hi, lo, reset (with colorama missing they are all "").
-/

namespace Scores

/-- One CSV row as produced by csv.DictReader: an association list from
field name to the raw string value of that field. -/
abbrev Row := List (String × String)

/-- Python exceptions that the pipeline can raise.  fileNotFound models
FileNotFoundError from open, keyError models KeyError from a dict
subscript, valueError models ValueError (from int() on a bad literal and
from max()/min() on an empty sequence), zeroDivisionError models
ZeroDivisionError. -/
inductive Err where
  | fileNotFound : Err
  | keyError : String → Err
  | valueError : String → Err
  | zeroDivisionError : Err
  deriving DecidableEq

/-- Per-participant statistics: the value stored in the statistics dict
built by calculate_statistics. -/
structure Stats where
  average : ℚ
  max : ℤ
  min : ℤ
  deriving DecidableEq

/-- Python dict lookup on an association list: first binding wins. -/
def dictLookup {β : Type} (key : String) : List (String × β) → Option β
  | [] => none
  | (k, v) :: rest => if k = key then some v else dictLookup key rest

/-- Python dict subscript row[key]: the value when present, KeyError
otherwise. -/
def dictGet {β : Type} (row : List (String × β)) (key : String) : Except Err β :=
  match dictLookup key row with
  | some v => Except.ok v
  | none => Except.error (Err.keyError key)

/-- Numeric value of a list of decimal digit characters. -/
def digitsVal (cs : List Char) : Nat :=
  cs.foldl (fun n c => 10 * n + (c.toNat - 48)) 0

/-- Whitespace stripping as int() performs on its argument. -/
def pyTrim (cs : List Char) : List Char :=
  ((cs.dropWhile Char.isWhitespace).reverse.dropWhile Char.isWhitespace).reverse

/-- Python int(s) on a string: an optional sign followed by decimal
digits (surrounding whitespace allowed), ValueError otherwise.
Underscore digit separators, which Python also accepts, are not
modelled; no input in the claims uses them. -/
def pyInt (s : String) : Except Err Int :=
  match pyTrim s.data with
  | [] => Except.error (Err.valueError ("invalid literal for int() with base 10: \x27" ++ s ++ "\x27"))
  | '-' :: rest =>
    if rest ≠ [] ∧ rest.all Char.isDigit then Except.ok (-(digitsVal rest : Int))
    else Except.error (Err.valueError ("invalid literal for int() with base 10: \x27" ++ s ++ "\x27"))
  | '+' :: rest =>
    if rest ≠ [] ∧ rest.all Char.isDigit then Except.ok (digitsVal rest : Int)
    else Except.error (Err.valueError ("invalid literal for int() with base 10: \x27" ++ s ++ "\x27"))
  | c :: rest =>
    if (c :: rest).all Char.isDigit then Except.ok (digitsVal (c :: rest) : Int)
    else Except.error (Err.valueError ("invalid literal for int() with base 10: \x27" ++ s ++ "\x27"))

/-- load_csv_data (src/scores_4.py:50-71): opens the file and returns
its rows in file order.  The loader performs no validation of field
values; a missing file surfaces as FileNotFoundError from open. -/
def load_csv_data (file : Option (List Row)) : Except Err (List Row) :=
  match file with
  | none => Except.error Err.fileNotFound
  | some rows => Except.ok rows

/-- One step of the grouping loop: scores_by_person[name].append(score)
on a defaultdict(list), embedded on an association list.  A new name is
appended at the end (dict insertion order); an existing name has the
score appended to its list. -/
def addScore : List (String × List Int) → String → Int → List (String × List Int)
  | [], name, score => [(name, [score])]
  | (n, ss) :: rest, name, score =>
    if n = name then (n, ss ++ [score]) :: rest
    else (n, ss) :: addScore rest name score

/-- The grouping loop of calculate_statistics (src/scores_4.py:88-93):
for each row, read row[\x27名前\x27], parse int(row[\x27スコア\x27]) and append the
score to that participant's list.  The first failing row aborts the
loop with its exception. -/
def groupScores : List Row → List (String × List Int) → Except Err (List (String × List Int))
  | [], acc => Except.ok acc
  | row :: rest, acc =>
    match dictGet row ("名前") with
    | Except.error e => Except.error e
    | Except.ok name =>
      match dictGet row ("スコア") with
      | Except.error e => Except.error e
      | Except.ok s =>
        match pyInt s with
        | Except.error e => Except.error e
        | Except.ok score => groupScores rest (addScore acc name score)

/-- Statistics of one nonempty group of scores, exactly as computed at
src/scores_4.py:100-102: average = sum(scores)/len(scores) (the sum is
exact integer arithmetic, the division is embedded as exact rational
division), max = max(scores), min = min(scores), where Python max/min
on a nonempty list fold from the head. -/
def mkStats (x : Int) (xs : List Int) : Stats :=
  ⟨(((x :: xs).sum : ℤ) : ℚ) / (((x :: xs).length : ℕ) : ℚ), xs.foldl max x, xs.foldl min x⟩

/-- Statistics of one group of scores.  Groups built by the loop are
never empty; on an empty list Python would raise ZeroDivisionError from
sum(scores)/len(scores). -/
def statsOfScores : List Int → Except Err Stats
  | [] => Except.error Err.zeroDivisionError
  | x :: xs => Except.ok (mkStats x xs)

/-- The statistics loop of calculate_statistics (src/scores_4.py:99-109):
one (name, stats) entry per group, in group (insertion) order. -/
def statsList : List (String × List Int) → Except Err (List (String × Stats))
  | [] => Except.ok []
  | (name, scores) :: rest =>
    match statsOfScores scores with
    | Except.error e => Except.error e
    | Except.ok st =>
      match statsList rest with
      | Except.error e => Except.error e
      | Except.ok tail => Except.ok ((name, st) :: tail)

/-- calculate_statistics (src/scores_4.py:74-111): group the rows by
participant name, then compute average/max/min per group. -/
def calculate_statistics (data : List Row) : Except Err (List (String × Stats)) :=
  match groupScores data [] with
  | Except.error e => Except.error e
  | Except.ok groups => statsList groups

/-- The list [stat[\x27average\x27] for stat in statistics.values()]. -/
def averagesOf (statistics : List (String × Stats)) : List ℚ :=
  statistics.map (fun p => p.2.average)

/-- find_max_min_average (src/scores_4.py:114-133): max and min of the
list of averages.  On an empty statistics dict Python's max() raises
ValueError (the spec's EmptyDataError); Python max/min on a nonempty
list fold from the head. -/
def find_max_min_average (statistics : List (String × Stats)) : Except Err (ℚ × ℚ) :=
  match averagesOf statistics with
  | [] => Except.error (Err.valueError ("max() arg is an empty sequence"))
  | a :: rest => Except.ok (rest.foldl max a, rest.foldl min a)

/-- Round a rational to the nearest integer, ties to even: the rounding
Python applies to the scaled value when formatting with one decimal
place. -/
def roundHalfEven (q : ℚ) : ℤ :=
  if q - ⌊q⌋ < 1/2 then ⌊q⌋
  else if (1 : ℚ)/2 < q - ⌊q⌋ then ⌊q⌋ + 1
  else if ⌊q⌋ % 2 = 0 then ⌊q⌋ else ⌊q⌋ + 1

/-- format_score (src/scores_4.py:136-146): the Python format
f"{score:.1f}", i.e. the decimal expansion rounded to one fractional
digit.  (Python rounds the binary double nearest to the exact rational;
for the integer-quotient averages arising here the two agree except
when the double rounding itself changes the displayed tenth, and for
negative values in (-0.05, 0) Python prints "-0.0".) -/
def format_score (score : ℚ) : String :=
  let n := roundHalfEven (score * 10)
  let m := n.natAbs
  (if n < 0 then "-" else "") ++ toString (m / 10) ++ "." ++ toString (m % 10)

/-- Python str.ljust / format spec :<width — pad with spaces on the
right to the given character count, never truncating. -/
def ljust (s : String) (width : Nat) : String :=
  s ++ String.mk (List.replicate (width - s.data.length) ' ')

/-- The separator line "=" * 70. -/
def sepLine : String := String.mk (List.replicate 70 '=')

/-- The table header line (src/scores_4.py:169). -/
def headerLine : String :=
  ljust ("参加者名") 20 ++ " " ++ ljust ("平均点") 15 ++ " " ++ ljust ("最高点") 15 ++ " " ++ ljust ("最低点") 15

/-- One table row (src/scores_4.py:176-197): color prefix chosen by the
if/elif on the row's average against the global extremes, then the four
left-justified columns of widths 20, 15, 15, 15 separated by single
spaces, then the color reset. -/
def rowLine (hi lo reset : String) (name : String) (stat : Stats) (max_average min_average : ℚ) : String :=
  let color_start := if stat.average = max_average then hi
    else if stat.average = min_average then lo else ""
  let color_end := if stat.average = max_average then reset
    else if stat.average = min_average then reset else ""
  color_start ++ ljust name 20 ++ " " ++ ljust (format_score stat.average) 15 ++ " "
    ++ ljust (toString stat.max) 15 ++ " " ++ ljust (toString stat.min) 15 ++ color_end

/-- Lexicographic comparison of character lists by code point: the
order Python uses to compare strings. -/
def charListLe : List Char → List Char → Bool
  | [], _ => true
  | _ :: _, [] => false
  | a :: as, b :: bs =>
    if a < b then true else if b < a then false else charListLe as bs

/-- Python string comparison s <= t: lexicographic by code point. -/
def pyStrLe (s t : String) : Prop := charListLe s.data t.data = true

instance : DecidableRel pyStrLe :=
  fun s t => inferInstanceAs (Decidable (charListLe s.data t.data = true))

instance : IsTotal String pyStrLe where
  total := by
    have key : ∀ as bs, charListLe as bs = true ∨ charListLe bs as = true := by
      intro as
      induction as with
      | nil => intro bs; left; rfl
      | cons a as ih =>
        intro bs
        cases bs with
        | nil => right; rfl
        | cons b bs =>
          simp only [charListLe]
          rcases lt_trichotomy a b with h | h | h
          · left; simp [h]
          · subst h
            simpa [lt_irrefl] using ih bs
          · right; simp [h, lt_asymm h]
    intro s t
    exact key s.data t.data

instance : IsTrans String pyStrLe where
  trans := by
    have key : ∀ as bs cs, charListLe as bs = true → charListLe bs cs = true →
        charListLe as cs = true := by
      intro as
      induction as with
      | nil => intro bs cs _ _; rfl
      | cons a as ih =>
        intro bs cs hab hbc
        cases bs with
        | nil => simp [charListLe] at hab
        | cons b bs =>
          cases cs with
          | nil => simp [charListLe] at hbc
          | cons c cs =>
            simp only [charListLe] at hab hbc ⊢
            rcases lt_trichotomy a b with h1 | h1 | h1
            · rcases lt_trichotomy b c with h2 | h2 | h2
              · simp [lt_trans h1 h2]
              · subst h2; simp [h1]
              · simp [h1, lt_asymm h1] at hab
                simp [h2, lt_asymm h2] at hbc
            · subst h1
              rcases lt_trichotomy a c with h2 | h2 | h2
              · simp [h2]
              · subst h2
                simp [lt_irrefl] at hab hbc ⊢
                exact ih _ _ hab hbc
              · simp [h2, lt_asymm h2] at hbc
            · simp [h1, lt_asymm h1] at hab
    intro s t u hst htu
    exact key s.data t.data u.data hst htu

instance : IsAntisymm String pyStrLe where
  antisymm := by
    have key : ∀ as bs, charListLe as bs = true → charListLe bs as = true → as = bs := by
      intro as
      induction as with
      | nil =>
        intro bs _ hba
        cases bs with
        | nil => rfl
        | cons b bs => simp [charListLe] at hba
      | cons a as ih =>
        intro bs hab hba
        cases bs with
        | nil => simp [charListLe] at hab
        | cons b bs =>
          simp only [charListLe] at hab hba
          rcases lt_trichotomy a b with h | h | h
          · simp [h, lt_asymm h] at hba
          · subst h
            simp only [lt_irrefl, if_neg (lt_irrefl a), if_false] at hab hba
            exact congrArg (a :: ·) (ih bs hab hba)
          · simp [h, lt_asymm h] at hab
    intro s t hst hts
    exact String.ext (key s.data t.data hst hts)

/-- sorted(statistics.keys()): the participant names in ascending
lexicographic order (src/scores_4.py:173). -/
def sortedNames (statistics : List (String × Stats)) : List String :=
  List.insertionSort pyStrLe (statistics.map Prod.fst)

/-- The row-printing loop of display_table: one rendered line per
sorted participant name, each looked up in the statistics dict. -/
def renderRows (hi lo reset : String) (statistics : List (String × Stats)) (mx mn : ℚ) :
    List String → Except Err (List String)
  | [] => Except.ok []
  | name :: rest =>
    match dictLookup name statistics with
    | none => Except.error (Err.keyError name)
    | some stat =>
      match renderRows hi lo reset statistics mx mn rest with
      | Except.error e => Except.error e
      | Except.ok tail => Except.ok (rowLine hi lo reset name stat mx mn :: tail)

/-- The legend printed after the table (src/scores_4.py:200-203). -/
def legendLines (hi lo reset : String) : List String :=
  [sepLine, "\n凡例:", hi ++ "■" ++ reset ++ " 平均値が最も高い行",
    lo ++ "■" ++ reset ++ " 平均値が最も低い行"]

/-- display_table (src/scores_4.py:149-203): the list of strings the
function prints, in order — opening separators and header, one row per
participant sorted by name, closing separator and legend. -/
def display_table (hi lo reset : String) (statistics : List (String × Stats)) :
    Except Err (List String) :=
  match find_max_min_average statistics with
  | Except.error e => Except.error e
  | Except.ok (max_average, min_average) =>
    match renderRows hi lo reset statistics max_average min_average (sortedNames statistics) with
    | Except.error e => Except.error e
    | Except.ok rows =>
      Except.ok (["\n" ++ sepLine, headerLine, sepLine] ++ rows ++ legendLines hi lo reset)

/-- The emphasis applied to one rendered table row. -/
inductive Mark where
  | high : Mark
  | low : Mark
  | plain : Mark
  deriving DecidableEq

/-- The emphasis decision for one row (src/scores_4.py:186-194): the
if/elif chain — red bold when the average equals the maximum average,
else blue bold when it equals the minimum average, else no color. -/
def markOf (stat : Stats) (mx mn : ℚ) : Mark :=
  if stat.average = mx then Mark.high
  else if stat.average = mn then Mark.low
  else Mark.plain

/-- The emphasis of each rendered row, in table (sorted-name) order. -/
def marksRows (statistics : List (String × Stats)) (mx mn : ℚ) :
    List String → Except Err (List Mark)
  | [] => Except.ok []
  | name :: rest =>
    match dictLookup name statistics with
    | none => Except.error (Err.keyError name)
    | some stat =>
      match marksRows statistics mx mn rest with
      | Except.error e => Except.error e
      | Except.ok tail => Except.ok (markOf stat mx mn :: tail)

/-- The emphasis column of the rendered table: the mark of each row of
display_table, in display order. -/
def displayMarks (statistics : List (String × Stats)) : Except Err (List Mark) :=
  match find_max_min_average statistics with
  | Except.error e => Except.error e
  | Except.ok (max_average, min_average) =>
    marksRows statistics max_average min_average (sortedNames statistics)

/-- The str() of a Python exception, as interpolated into the generic
error message at src/scores_4.py:231. -/
def errDesc : Err → String
  | Err.fileNotFound => "[Errno 2] No such file or directory: \x27課題2.csv\x27"
  | Err.keyError k => "\x27" ++ k ++ "\x27"
  | Err.valueError msg => msg
  | Err.zeroDivisionError => "division by zero"

/-- The dedicated message of the FileNotFoundError handler
(src/scores_4.py:224-227). -/
def fileNotFoundLines : List String :=
  ["エラー: ファイル \x27課題2.csv\x27 が見つかりません。",
    "ファイルが同じディレクトリにあることを確認してください。"]

/-- The except clauses of main: FileNotFoundError gets the dedicated
message, every other exception the generic one (src/scores_4.py:224-231). -/
def handleErr : Err → List String
  | Err.fileNotFound => fileNotFoundLines
  | e => ["エラーが発生しました: " ++ errDesc e]

/-- main (src/scores_4.py:206-231): the full console output of one run,
as the list of strings printed.  The first print precedes the load, so
it appears even when the file is missing. -/
def main (hi lo reset : String) (file : Option (List Row)) : List String :=
  let p1 := ["CSVファイルを読み込んでいます..."]
  match load_csv_data file with
  | Except.error e => p1 ++ handleErr e
  | Except.ok data =>
    let p2 := p1 ++ ["データを " ++ toString data.length ++ " 件読み込みました。",
      "統計情報を計算しています..."]
    match calculate_statistics data with
    | Except.error e => p2 ++ handleErr e
    | Except.ok statistics =>
      let p3 := p2 ++ [toString statistics.length ++ " 名の参加者の統計情報を計算しました。"]
      match display_table hi lo reset statistics with
      | Except.error e => p3 ++ handleErr e
      | Except.ok tableLines => p3 ++ tableLines

/-- Parse of one row into a Record (name, score), combining the two
dict subscripts and the int() conversion the grouping loop performs on
the row (src/scores_4.py:89-90). -/
def parseRow (row : Row) : Except Err (String × Int) :=
  match dictGet row ("名前") with
  | Except.error e => Except.error e
  | Except.ok name =>
    match dictGet row ("スコア") with
    | Except.error e => Except.error e
    | Except.ok s =>
      match pyInt s with
      | Except.error e => Except.error e
      | Except.ok score => Except.ok (name, score)

/-- The rows of the input denote, position by position, the given
sequence of Records (name, integer score). -/
def rowsDenote : List Row → List (String × Int) → Prop
  | [], [] => True
  | row :: rest, rec :: recs => parseRow row = Except.ok rec ∧ rowsDenote rest recs
  | _, _ => False

/-- The scores of one participant, in record order. -/
def filterScores (name : String) (records : List (String × Int)) : List Int :=
  (records.filter (fun r => decide (r.1 = name))).map Prod.snd

/-- The grouping of a record sequence, as the grouping loop builds it. -/
def groupRecords (records : List (String × Int)) : List (String × List Int) :=
  records.foldl (fun acc r => addScore acc r.1 r.2) []

/-- Reference statistics of one participant of a record sequence: none
when the name never occurs, otherwise the statistics of that
participant's scores. -/
def statsFor (records : List (String × Int)) (name : String) : Option Stats :=
  match filterScores name records with
  | [] => none
  | x :: xs => some (mkStats x xs)

/-- Total version of the per-group statistics, for stating lookup
characterisations.  The value at [] is arbitrary and never reached:
every group built by the grouping loop is nonempty. -/
def statsL : List Int → Stats
  | [] => ⟨0, 0, 0⟩
  | x :: xs => mkStats x xs

deriving instance DecidableEq for Except

instance instDecRowsDenote : (d : List Row) → (r : List (String × Int)) → Decidable (rowsDenote d r)
  | [], [] => isTrue trivial
  | [], _ :: _ => isFalse (fun h => h)
  | _ :: _, [] => isFalse (fun h => h)
  | _ :: rest, _ :: recs =>
    have : Decidable (rowsDenote rest recs) := instDecRowsDenote rest recs
    inferInstanceAs (Decidable (_ ∧ _))

/-- Concrete input of the specified scenario: rows (Alice, 80),
(Bob, 90), (Alice, 100). -/
def exData4 : List Row :=
  [[("名前", "Alice"), ("スコア", "80")],
   [("名前", "Bob"), ("スコア", "90")],
   [("名前", "Alice"), ("スコア", "100")]]

/-- The Records denoted by exData4. -/
def exRecords4 : List (String × Int) :=
  [("Alice", 80), ("Bob", 90), ("Alice", 100)]

/-- The statistics the scenario yields. -/
def exStats4 : List (String × Stats) :=
  [("Alice", ⟨90, 100, 80⟩), ("Bob", ⟨90, 90, 90⟩)]

/-- A statistics mapping with a two-way tie for the highest average
that is not a full tie. -/
def exStats3 : List (String × Stats) :=
  [("A", ⟨90, 90, 90⟩), ("B", ⟨90, 90, 90⟩), ("C", ⟨50, 50, 50⟩)]

/-- A row whose score field is not integer-parseable. -/
def badRow : Row := [("名前", "Carol"), ("スコア", "abc")]

/-- A well-formed single row, for witnesses. -/
def goodRow : Row := [("名前", "Dave"), ("スコア", "7")]

/-! Helper lemmas: Python max/min on a nonempty list, folded from the
head, produce the greatest/least element; the fold is therefore
invariant under permutation of the list. -/

theorem foldl_max_mem {α : Type} [LinearOrder α] (xs : List α) : ∀ x : α, xs.foldl max x ∈ x :: xs := by
  induction xs with
  | nil => intro x; simp
  | cons y ys ih =>
    intro x
    have h := ih (max x y)
    simp only [List.foldl_cons]
    rcases List.mem_cons.mp h with h | h
    · rw [h]
      rcases max_choice x y with hm | hm <;> simp [hm]
    · simp [h]

theorem le_foldl_max {α : Type} [LinearOrder α] (xs : List α) : ∀ x a : α, a ∈ x :: xs → a ≤ xs.foldl max x := by
  induction xs with
  | nil => intro x a ha; simp at ha; simp [ha]
  | cons y ys ih =>
    intro x a ha
    simp only [List.foldl_cons]
    rcases List.mem_cons.mp ha with rfl | ha
    · exact le_trans (le_max_left a y) (ih (max a y) _ (List.mem_cons_self _ _))
    · rcases List.mem_cons.mp ha with rfl | ha
      · exact le_trans (le_max_right x a) (ih (max x a) _ (List.mem_cons_self _ _))
      · exact ih (max x y) a (List.mem_cons.mpr (Or.inr ha))

theorem foldl_max_eq {α : Type} [LinearOrder α] (xs : List α) (x m : α)
    (hmem : m ∈ x :: xs) (hub : ∀ a ∈ x :: xs, a ≤ m) : xs.foldl max x = m :=
  le_antisymm (hub _ (foldl_max_mem xs x)) (le_foldl_max xs x m hmem)

theorem foldl_min_mem {α : Type} [LinearOrder α] (xs : List α) : ∀ x : α, xs.foldl min x ∈ x :: xs := by
  induction xs with
  | nil => intro x; simp
  | cons y ys ih =>
    intro x
    have h := ih (min x y)
    simp only [List.foldl_cons]
    rcases List.mem_cons.mp h with h | h
    · rw [h]
      rcases min_choice x y with hm | hm <;> simp [hm]
    · simp [h]

theorem foldl_min_le {α : Type} [LinearOrder α] (xs : List α) : ∀ x a : α, a ∈ x :: xs → xs.foldl min x ≤ a := by
  induction xs with
  | nil => intro x a ha; simp at ha; simp [ha]
  | cons y ys ih =>
    intro x a ha
    simp only [List.foldl_cons]
    rcases List.mem_cons.mp ha with rfl | ha
    · exact le_trans (ih (min a y) _ (List.mem_cons_self _ _)) (min_le_left a y)
    · rcases List.mem_cons.mp ha with rfl | ha
      · exact le_trans (ih (min x a) _ (List.mem_cons_self _ _)) (min_le_right x a)
      · exact ih (min x y) a (List.mem_cons.mpr (Or.inr ha))

theorem foldl_min_eq {α : Type} [LinearOrder α] (xs : List α) (x m : α)
    (hmem : m ∈ x :: xs) (hlb : ∀ a ∈ x :: xs, m ≤ a) : xs.foldl min x = m :=
  le_antisymm (foldl_min_le xs x m hmem) (hlb _ (foldl_min_mem xs x))

theorem foldl_max_perm {α : Type} [LinearOrder α] {x y : α} {xs ys : List α}
    (h : (x :: xs).Perm (y :: ys)) : xs.foldl max x = ys.foldl max y :=
  (foldl_max_eq ys y _ (h.mem_iff.mp (foldl_max_mem xs x))
    (fun a ha => le_foldl_max xs x a (h.mem_iff.mpr ha))).symm

theorem foldl_min_perm {α : Type} [LinearOrder α] {x y : α} {xs ys : List α}
    (h : (x :: xs).Perm (y :: ys)) : xs.foldl min x = ys.foldl min y :=
  (foldl_min_eq ys y _ (h.mem_iff.mp (foldl_min_mem xs x))
    (fun a ha => foldl_min_le xs x a (h.mem_iff.mpr ha))).symm

/-! Helper lemmas about Forall₂ and association-list lookup. -/

theorem mem_left_of_forallTwo {α β : Type} {R : α → β → Prop} :
    ∀ {l₁ : List α} {l₂ : List β}, List.Forall₂ R l₁ l₂ → ∀ a ∈ l₁, ∃ b ∈ l₂, R a b := by
  intro l₁
  induction l₁ with
  | nil => intro l₂ _ a ha; simp at ha
  | cons x xs ih =>
    intro l₂ h a ha
    cases l₂ with
    | nil => cases h
    | cons y ys =>
      rcases List.forall₂_cons.mp h with ⟨hxy, hrest⟩
      rcases List.mem_cons.mp ha with rfl | ha
      · exact ⟨y, List.mem_cons_self _ _, hxy⟩
      · rcases ih hrest a ha with ⟨b, hb, hR⟩
        exact ⟨b, List.mem_cons.mpr (Or.inr hb), hR⟩

theorem mem_right_of_forallTwo {α β : Type} {R : α → β → Prop} :
    ∀ {l₁ : List α} {l₂ : List β}, List.Forall₂ R l₁ l₂ → ∀ b ∈ l₂, ∃ a ∈ l₁, R a b := by
  intro l₁
  induction l₁ with
  | nil => intro l₂ h b hb; cases h; simp at hb
  | cons x xs ih =>
    intro l₂ h b hb
    cases l₂ with
    | nil => cases hb
    | cons y ys =>
      rcases List.forall₂_cons.mp h with ⟨hxy, hrest⟩
      rcases List.mem_cons.mp hb with rfl | hb
      · exact ⟨x, List.mem_cons_self _ _, hxy⟩
      · rcases ih hrest b hb with ⟨a, ha, hR⟩
        exact ⟨a, List.mem_cons.mpr (Or.inr ha), hR⟩

theorem dictLookup_eq_none_iff {β : Type} (m : String) :
    ∀ l : List (String × β), dictLookup m l = none ↔ m ∉ l.map Prod.fst := by
  intro l
  induction l with
  | nil => simp [dictLookup]
  | cons p rest ih =>
    obtain ⟨k, v⟩ := p
    by_cases hk : k = m
    · subst hk
      simp [dictLookup]
    · simp [dictLookup, hk, ih, Ne.symm hk]

theorem dictLookup_mem {β : Type} (m : String) (v : β) :
    ∀ l : List (String × β), dictLookup m l = some v → (m, v) ∈ l := by
  intro l
  induction l with
  | nil => intro h; simp [dictLookup] at h
  | cons p rest ih =>
    obtain ⟨k, w⟩ := p
    intro h
    by_cases hk : k = m
    · subst hk
      simp [dictLookup] at h
      simp [h]
    · simp [dictLookup, hk] at h
      exact List.mem_cons.mpr (Or.inr (ih h))

theorem mem_dictLookup {β : Type} (m : String) (v : β) :
    ∀ l : List (String × β), (l.map Prod.fst).Nodup → (m, v) ∈ l → dictLookup m l = some v := by
  intro l
  induction l with
  | nil => intro _ h; simp at h
  | cons p rest ih =>
    obtain ⟨k, w⟩ := p
    intro hnd hmem
    simp only [List.map_cons, List.nodup_cons] at hnd
    rcases List.mem_cons.mp hmem with heq | hmem
    · injection heq with h1 h2
      subst h1
      subst h2
      simp [dictLookup]
    · by_cases hk : k = m
      · subst hk
        exact absurd (List.mem_map_of_mem Prod.fst hmem) hnd.1
      · simp only [dictLookup, if_neg hk]
        exact ih hnd.2 hmem

theorem dictLookup_perm {β : Type} {l l' : List (String × β)} (hperm : l.Perm l')
    (hnd : (l.map Prod.fst).Nodup) : ∀ m, dictLookup m l = dictLookup m l' := by
  intro m
  have hnd' : (l'.map Prod.fst).Nodup := ((hperm.map Prod.fst).nodup_iff).mp hnd
  cases h : dictLookup m l with
  | none =>
    rw [dictLookup_eq_none_iff] at h
    have : m ∉ l'.map Prod.fst := fun hc => h ((hperm.map Prod.fst).mem_iff.mpr hc)
    exact ((dictLookup_eq_none_iff m l').mpr this).symm
  | some v =>
    have := dictLookup_mem m v l h
    exact (mem_dictLookup m v l' hnd' (hperm.mem_iff.mp this)).symm

/-! Helper lemmas about the grouping loop. -/

theorem dictLookup_addScore (n m : String) (s : Int) :
    ∀ acc, dictLookup m (addScore acc n s) =
      if n = m then some (((dictLookup m acc).getD []) ++ [s]) else dictLookup m acc := by
  intro acc
  induction acc with
  | nil =>
    simp only [addScore, dictLookup]
    by_cases h : n = m <;> simp [h]
  | cons p rest ih =>
    obtain ⟨k, v⟩ := p
    simp only [addScore]
    by_cases hkn : k = n
    · subst hkn
      by_cases hkm : k = m
      · subst hkm
        simp [dictLookup]
      · simp [dictLookup, hkm, hkm]
    · by_cases hkm : k = m
      · subst hkm
        have hnm : n ≠ k := fun h => hkn h.symm
        simp [dictLookup, hkn, hnm]
      · simp [dictLookup, hkn, hkm, ih]

theorem map_fst_addScore (n : String) (s : Int) :
    ∀ acc, (addScore acc n s).map Prod.fst =
      if n ∈ acc.map Prod.fst then acc.map Prod.fst else acc.map Prod.fst ++ [n] := by
  intro acc
  induction acc with
  | nil => simp [addScore]
  | cons p rest ih =>
    obtain ⟨k, v⟩ := p
    simp only [addScore]
    by_cases hkn : k = n
    · subst hkn
      simp
    · have hnk : ¬ n = k := fun h => hkn h.symm
      simp only [if_neg hkn, List.map_cons, ih, List.mem_cons, hnk, false_or]
      by_cases hmem : n ∈ rest.map Prod.fst <;> simp [hmem]

theorem mem_map_fst_addScore (n m : String) (s : Int) (acc : List (String × List Int)) :
    m ∈ (addScore acc n s).map Prod.fst ↔ m ∈ acc.map Prod.fst ∨ m = n := by
  rw [map_fst_addScore]
  by_cases hmem : n ∈ acc.map Prod.fst
  · simp only [if_pos hmem]
    constructor
    · exact Or.inl
    · rintro (h | rfl)
      · exact h
      · exact hmem
  · simp [if_neg hmem, List.mem_append]

theorem nodup_map_fst_addScore (n : String) (s : Int) (acc : List (String × List Int))
    (h : (acc.map Prod.fst).Nodup) : ((addScore acc n s).map Prod.fst).Nodup := by
  rw [map_fst_addScore]
  by_cases hmem : n ∈ acc.map Prod.fst
  · simpa [if_pos hmem] using h
  · simp [if_neg hmem, List.nodup_append, h, hmem]

theorem filterScores_cons (m : String) (r : String × Int) (rest : List (String × Int)) :
    filterScores m (r :: rest) =
      if r.1 = m then r.2 :: filterScores m rest else filterScores m rest := by
  by_cases h : r.1 = m <;> simp [filterScores, List.filter_cons, h]

theorem filterScores_eq_nil (m : String) :
    ∀ records : List (String × Int), filterScores m records = [] ↔ m ∉ records.map Prod.fst := by
  intro records
  induction records with
  | nil => simp [filterScores]
  | cons r rest ih =>
    rw [filterScores_cons]
    by_cases h : r.1 = m
    · simp [h]
    · simp only [if_neg h, ih, List.map_cons, List.mem_cons]
      have : ¬ m = r.1 := fun hc => h hc.symm
      simp [this]

theorem dictLookup_foldl_addScore (m : String) :
    ∀ (records : List (String × Int)) (acc : List (String × List Int)),
      dictLookup m (records.foldl (fun a r => addScore a r.1 r.2) acc) =
        if filterScores m records = [] then dictLookup m acc
        else some (((dictLookup m acc).getD []) ++ filterScores m records) := by
  intro records
  induction records with
  | nil => intro acc; simp [filterScores]
  | cons r rest ih =>
    intro acc
    rw [List.foldl_cons, ih (addScore acc r.1 r.2), filterScores_cons,
      dictLookup_addScore r.1 m r.2 acc]
    by_cases hr : r.1 = m
    · simp only [if_pos hr]
      by_cases hrest : filterScores m rest = []
      · simp [hrest]
      · simp [hrest]
    · simp only [if_neg hr]

theorem dictLookup_groupRecords (m : String) (records : List (String × Int)) :
    dictLookup m (groupRecords records) =
      match filterScores m records with
      | [] => none
      | l => some l := by
  rw [groupRecords, dictLookup_foldl_addScore]
  cases h : filterScores m records with
  | nil => simp [dictLookup]
  | cons x xs => simp [dictLookup]

theorem mem_map_fst_foldl_addScore (m : String) :
    ∀ (records : List (String × Int)) (acc : List (String × List Int)),
      m ∈ ((records.foldl (fun a r => addScore a r.1 r.2) acc).map Prod.fst) ↔
        m ∈ acc.map Prod.fst ∨ m ∈ records.map Prod.fst := by
  intro records
  induction records with
  | nil => intro acc; simp
  | cons r rest ih =>
    intro acc
    rw [List.foldl_cons, ih (addScore acc r.1 r.2)]
    rw [mem_map_fst_addScore]
    simp only [List.map_cons, List.mem_cons]
    constructor
    · rintro ((h | rfl) | h)
      · exact Or.inl h
      · exact Or.inr (Or.inl rfl)
      · exact Or.inr (Or.inr h)
    · rintro (h | rfl | h)
      · exact Or.inl (Or.inl h)
      · exact Or.inl (Or.inr rfl)
      · exact Or.inr h

theorem nodup_map_fst_foldl_addScore :
    ∀ (records : List (String × Int)) (acc : List (String × List Int)),
      (acc.map Prod.fst).Nodup →
      ((records.foldl (fun a r => addScore a r.1 r.2) acc).map Prod.fst).Nodup := by
  intro records
  induction records with
  | nil => intro acc h; simpa using h
  | cons r rest ih =>
    intro acc h
    rw [List.foldl_cons]
    exact ih _ (nodup_map_fst_addScore r.1 r.2 acc h)

theorem nodup_map_fst_groupRecords (records : List (String × Int)) :
    ((groupRecords records).map Prod.fst).Nodup :=
  nodup_map_fst_foldl_addScore records [] (by simp)

theorem mem_groupRecords_ne_nil (records : List (String × Int)) (p : String × List Int)
    (hmem : p ∈ groupRecords records) : p.2 ≠ [] := by
  obtain ⟨n, l⟩ := p
  have hl : dictLookup n (groupRecords records) = some l :=
    mem_dictLookup n l (groupRecords records) (nodup_map_fst_groupRecords records) hmem
  rw [dictLookup_groupRecords] at hl
  intro hnil
  subst hnil
  cases h : filterScores n records with
  | nil => rw [h] at hl; cases hl
  | cons x xs =>
    rw [h] at hl
    simp at hl

/-! Helper lemmas about the row loop of calculate_statistics. -/

theorem groupScores_cons_ok (row : Row) (rest : List Row) (acc : List (String × List Int))
    (n : String) (sc : Int) (h : parseRow row = Except.ok (n, sc)) :
    groupScores (row :: rest) acc = groupScores rest (addScore acc n sc) := by
  cases h1 : dictGet row ("名前") with
  | error e => simp only [parseRow, h1] at h; exact Except.noConfusion h
  | ok name =>
    cases h2 : dictGet row ("スコア") with
    | error e => simp only [parseRow, h1, h2] at h; exact Except.noConfusion h
    | ok s =>
      cases h3 : pyInt s with
      | error e => simp only [parseRow, h1, h2, h3] at h; exact Except.noConfusion h
      | ok score =>
        simp only [parseRow, h1, h2, h3, Except.ok.injEq, Prod.mk.injEq] at h
        obtain ⟨rfl, rfl⟩ := h
        simp only [groupScores, h1, h2, h3]

theorem groupScores_cons_err (row : Row) (rest : List Row) (acc : List (String × List Int))
    (e : Err) (h : parseRow row = Except.error e) :
    groupScores (row :: rest) acc = Except.error e := by
  cases h1 : dictGet row ("名前") with
  | error e1 =>
    simp only [parseRow, h1, Except.error.injEq] at h
    subst h
    simp [groupScores, h1]
  | ok name =>
    cases h2 : dictGet row ("スコア") with
    | error e2 =>
      simp only [parseRow, h1, h2, Except.error.injEq] at h
      subst h
      simp [groupScores, h1, h2]
    | ok s =>
      cases h3 : pyInt s with
      | error e3 =>
        simp only [parseRow, h1, h2, h3, Except.error.injEq] at h
        subst h
        simp [groupScores, h1, h2, h3]
      | ok score => simp only [parseRow, h1, h2, h3] at h; exact Except.noConfusion h

theorem groupScores_denotes :
    ∀ (data : List Row) (records : List (String × Int)), rowsDenote data records →
      ∀ acc, groupScores data acc =
        Except.ok (records.foldl (fun a r => addScore a r.1 r.2) acc) := by
  intro data
  induction data with
  | nil =>
    intro records h acc
    cases records with
    | nil => rfl
    | cons r rs => cases h
  | cons row rest ih =>
    intro records h acc
    cases records with
    | nil => cases h
    | cons rec recs =>
      obtain ⟨hp, hr⟩ := h
      obtain ⟨n, sc⟩ := rec
      rw [groupScores_cons_ok row rest acc n sc hp, List.foldl_cons]
      exact ih recs hr _

theorem groupScores_ok_parses :
    ∀ (data : List Row) (acc : List (String × List Int)) (gs : List (String × List Int)),
      groupScores data acc = Except.ok gs → ∀ row ∈ data, ∃ rec, parseRow row = Except.ok rec := by
  intro data
  induction data with
  | nil => intro acc gs _ row hrow; simp at hrow
  | cons row₀ rest ih =>
    intro acc gs h row hrow
    cases h1 : dictGet row₀ ("名前") with
    | error e => simp only [groupScores, h1] at h; exact Except.noConfusion h
    | ok name =>
      cases h2 : dictGet row₀ ("スコア") with
      | error e => simp only [groupScores, h1, h2] at h; exact Except.noConfusion h
      | ok s =>
        cases h3 : pyInt s with
        | error e => simp only [groupScores, h1, h2, h3] at h; exact Except.noConfusion h
        | ok score =>
          simp only [groupScores, h1, h2, h3] at h
          rcases List.mem_cons.mp hrow with rfl | hrow
          · exact ⟨(name, score), by simp [parseRow, h1, h2, h3]⟩
          · exact ih _ _ h row hrow

/-! Helper lemmas about the statistics loop. -/

theorem statsList_ok :
    ∀ gs : List (String × List Int), (∀ p ∈ gs, p.2 ≠ []) →
      ∃ stats, statsList gs = Except.ok stats ∧
        stats.map Prod.fst = gs.map Prod.fst ∧
        ∀ m, dictLookup m stats = (dictLookup m gs).map statsL := by
  intro gs
  induction gs with
  | nil => exact fun _ => ⟨[], rfl, rfl, fun m => by simp [dictLookup]⟩
  | cons p rest ih =>
    intro h
    obtain ⟨n, l⟩ := p
    cases l with
    | nil => exact absurd rfl (h (n, []) (List.mem_cons_self _ _))
    | cons x xs =>
      obtain ⟨tail, htail, hfst, hlook⟩ := ih (fun q hq => h q (List.mem_cons.mpr (Or.inr hq)))
      refine ⟨(n, mkStats x xs) :: tail, ?_, ?_, ?_⟩
      · simp only [statsList, statsOfScores, htail]
      · simp [hfst]
      · intro m
        by_cases hm : n = m
        · subst hm
          simp [dictLookup, statsL]
        · simp [dictLookup, hm, hlook m]

theorem statsList_mem :
    ∀ (gs : List (String × List Int)) (stats : List (String × Stats)),
      statsList gs = Except.ok stats →
      ∀ p ∈ stats, ∃ l, (p.1, l) ∈ gs ∧ statsOfScores l = Except.ok p.2 := by
  intro gs
  induction gs with
  | nil =>
    intro stats h p hp
    simp only [statsList, Except.ok.injEq] at h
    subst h
    simp at hp
  | cons q rest ih =>
    intro stats h p hp
    obtain ⟨n, l⟩ := q
    cases hst : statsOfScores l with
    | error e => simp only [statsList, hst] at h; exact Except.noConfusion h
    | ok st =>
      cases htail : statsList rest with
      | error e => simp only [statsList, hst, htail] at h; exact Except.noConfusion h
      | ok tail =>
        simp only [statsList, hst, htail, Except.ok.injEq] at h
        subst h
        rcases List.mem_cons.mp hp with rfl | hp
        · exact ⟨l, List.mem_cons_self _ _, hst⟩
        · obtain ⟨l', hmem, hok⟩ := ih tail htail p hp
          exact ⟨l', List.mem_cons.mpr (Or.inr hmem), hok⟩

/-- Characterisation of a successful aggregation run: on input denoting
a record sequence, calculate_statistics succeeds, its keys are exactly
the distinct participant names, and the entry of each name holds the
statistics of that participant's scores. -/
theorem calculate_statistics_char (data : List Row) (records : List (String × Int))
    (h : rowsDenote data records) :
    ∃ stats, calculate_statistics data = Except.ok stats ∧
      (stats.map Prod.fst).Nodup ∧
      (∀ m, m ∈ stats.map Prod.fst ↔ m ∈ records.map Prod.fst) ∧
      (∀ m, dictLookup m stats = statsFor records m) := by
  have hgroup : groupScores data [] = Except.ok (groupRecords records) :=
    groupScores_denotes data records h []
  obtain ⟨stats, hok, hfst, hlook⟩ :=
    statsList_ok (groupRecords records) (fun p hp => mem_groupRecords_ne_nil records p hp)
  refine ⟨stats, ?_, ?_, ?_, ?_⟩
  · simp only [calculate_statistics, hgroup, hok]
  · rw [hfst]; exact nodup_map_fst_groupRecords records
  · intro m
    rw [hfst]
    have h1 := mem_map_fst_foldl_addScore m records []
    rw [groupRecords]
    simp only [List.map_nil] at h1
    rw [h1]
    simp
  · intro m
    rw [hlook m, dictLookup_groupRecords, statsFor]
    cases hfs : filterScores m records with
    | nil => rfl
    | cons x xs => simp [statsL]

/-! Helper lemmas: the average of a nonempty list of integers lies
between its minimum and its maximum. -/

theorem average_le_foldl_max (x : Int) (xs : List Int) :
    (((x :: xs).sum : ℤ) : ℚ) / (((x :: xs).length : ℕ) : ℚ) ≤ ((xs.foldl max x : ℤ) : ℚ) := by
  have hsum : ((x :: xs).sum : ℤ) ≤ ((x :: xs).length : ℤ) * (xs.foldl max x) := by
    have h := List.sum_le_card_nsmul (x :: xs) (xs.foldl max x) (le_foldl_max xs x)
    simpa [nsmul_eq_mul] using h
  have hlen : (0 : ℚ) < (((x :: xs).length : ℕ) : ℚ) := by
    exact_mod_cast Nat.succ_pos xs.length
  rw [div_le_iff₀ hlen]
  have hc := (Int.cast_le (R := ℚ)).mpr hsum
  push_cast at hc ⊢
  linarith

theorem foldl_min_le_average (x : Int) (xs : List Int) :
    ((xs.foldl min x : ℤ) : ℚ) ≤ (((x :: xs).sum : ℤ) : ℚ) / (((x :: xs).length : ℕ) : ℚ) := by
  have hsum : ((x :: xs).length : ℤ) * (xs.foldl min x) ≤ ((x :: xs).sum : ℤ) := by
    have h := List.card_nsmul_le_sum (x :: xs) (xs.foldl min x) (foldl_min_le xs x)
    simpa [nsmul_eq_mul] using h
  have hlen : (0 : ℚ) < (((x :: xs).length : ℕ) : ℚ) := by
    exact_mod_cast Nat.succ_pos xs.length
  rw [le_div_iff₀ hlen]
  have hc := (Int.cast_le (R := ℚ)).mpr hsum
  push_cast at hc ⊢
  linarith

/-! Helper lemmas about find_max_min_average. -/

theorem find_max_min_ok (st : List (String × Stats)) (hne : st ≠ []) :
    ∃ mx mn, find_max_min_average st = Except.ok (mx, mn) := by
  cases st with
  | nil => exact absurd rfl hne
  | cons p rest => exact ⟨_, _, rfl⟩

theorem find_max_min_spec (st : List (String × Stats)) (mx mn : ℚ)
    (h : find_max_min_average st = Except.ok (mx, mn)) :
    mx ∈ averagesOf st ∧ (∀ a ∈ averagesOf st, a ≤ mx) ∧
    mn ∈ averagesOf st ∧ (∀ a ∈ averagesOf st, mn ≤ a) := by
  cases hav : averagesOf st with
  | nil => simp only [find_max_min_average, hav] at h; exact Except.noConfusion h
  | cons a rest =>
    simp only [find_max_min_average, hav, Except.ok.injEq, Prod.mk.injEq] at h
    obtain ⟨rfl, rfl⟩ := h
    exact ⟨foldl_max_mem rest a, le_foldl_max rest a, foldl_min_mem rest a, foldl_min_le rest a⟩

theorem find_max_min_perm (st st' : List (String × Stats)) (hperm : st.Perm st') :
    find_max_min_average st = find_max_min_average st' := by
  have hav : (averagesOf st).Perm (averagesOf st') := hperm.map _
  cases h1 : averagesOf st with
  | nil =>
    rw [h1] at hav
    have h2 : averagesOf st' = [] := hav.symm.eq_nil
    simp [find_max_min_average, h1, h2]
  | cons a rest =>
    cases h2 : averagesOf st' with
    | nil =>
      rw [h1, h2] at hav
      exact absurd hav.eq_nil (List.cons_ne_nil a rest)
    | cons b rest' =>
      rw [h1, h2] at hav
      simp only [find_max_min_average, h1, h2]
      rw [foldl_max_perm hav, foldl_min_perm hav]

/-! Helper lemmas about the sorted key list and the row loops. -/

theorem sortedNames_sorted (st : List (String × Stats)) :
    List.Sorted pyStrLe (sortedNames st) :=
  List.sorted_insertionSort pyStrLe _

theorem sortedNames_perm (st : List (String × Stats)) :
    (sortedNames st).Perm (st.map Prod.fst) :=
  List.perm_insertionSort pyStrLe _

theorem sortedNames_eq_of_perm (st st' : List (String × Stats)) (hperm : st.Perm st') :
    sortedNames st = sortedNames st' :=
  List.eq_of_perm_of_sorted
    ((sortedNames_perm st).trans ((hperm.map _).trans (sortedNames_perm st').symm))
    (sortedNames_sorted st) (sortedNames_sorted st')

theorem marksRows_ok (st : List (String × Stats)) (mx mn : ℚ) :
    ∀ names, (∀ name ∈ names, ∃ stat, dictLookup name st = some stat) →
      ∃ ms, marksRows st mx mn names = Except.ok ms ∧
        List.Forall₂ (fun name m => ∃ stat, dictLookup name st = some stat ∧
          m = markOf stat mx mn) names ms := by
  intro names
  induction names with
  | nil => exact fun _ => ⟨[], rfl, List.Forall₂.nil⟩
  | cons name rest ih =>
    intro h
    obtain ⟨stat, hstat⟩ := h name (List.mem_cons_self _ _)
    obtain ⟨ms, hok, hfa⟩ := ih (fun n hn => h n (List.mem_cons.mpr (Or.inr hn)))
    refine ⟨markOf stat mx mn :: ms, ?_, ?_⟩
    · simp only [marksRows, hstat, hok]
    · exact List.Forall₂.cons ⟨stat, hstat, rfl⟩ hfa

theorem renderRows_ok (hi lo reset : String) (st : List (String × Stats)) (mx mn : ℚ) :
    ∀ names, (∀ name ∈ names, ∃ stat, dictLookup name st = some stat) →
      ∃ rows, renderRows hi lo reset st mx mn names = Except.ok rows ∧
        List.Forall₂ (fun name r => ∃ stat, dictLookup name st = some stat ∧
          r = rowLine hi lo reset name stat mx mn) names rows := by
  intro names
  induction names with
  | nil => exact fun _ => ⟨[], rfl, List.Forall₂.nil⟩
  | cons name rest ih =>
    intro h
    obtain ⟨stat, hstat⟩ := h name (List.mem_cons_self _ _)
    obtain ⟨rows, hok, hfa⟩ := ih (fun n hn => h n (List.mem_cons.mpr (Or.inr hn)))
    refine ⟨rowLine hi lo reset name stat mx mn :: rows, ?_, ?_⟩
    · simp only [renderRows, hstat, hok]
    · exact List.Forall₂.cons ⟨stat, hstat, rfl⟩ hfa

theorem marksRows_congr (st st' : List (String × Stats)) (mx mn : ℚ)
    (hl : ∀ m, dictLookup m st = dictLookup m st') :
    ∀ names, marksRows st mx mn names = marksRows st' mx mn names := by
  intro names
  induction names with
  | nil => rfl
  | cons name rest ih => simp only [marksRows, hl name, ih]

theorem renderRows_congr (hi lo reset : String) (st st' : List (String × Stats)) (mx mn : ℚ)
    (hl : ∀ m, dictLookup m st = dictLookup m st') :
    ∀ names, renderRows hi lo reset st mx mn names = renderRows hi lo reset st' mx mn names := by
  intro names
  induction names with
  | nil => rfl
  | cons name rest ih => simp only [renderRows, hl name, ih]

theorem lookup_some_of_mem_sortedNames (st : List (String × Stats)) :
    ∀ name ∈ sortedNames st, ∃ stat, dictLookup name st = some stat := by
  intro name hname
  have hmem : name ∈ st.map Prod.fst := (sortedNames_perm st).mem_iff.mp hname
  cases h : dictLookup name st with
  | none => exact absurd hmem ((dictLookup_eq_none_iff name st).mp h)
  | some stat => exact ⟨stat, rfl⟩

theorem display_table_perm (hi lo reset : String) (st st' : List (String × Stats))
    (hnd : (st.map Prod.fst).Nodup) (hperm : st.Perm st') :
    display_table hi lo reset st' = display_table hi lo reset st := by
  have h1 := find_max_min_perm st st' hperm
  have h2 := sortedNames_eq_of_perm st st' hperm
  have h3 : ∀ m, dictLookup m st' = dictLookup m st :=
    fun m => (dictLookup_perm hperm hnd m).symm
  have h4 : ∀ (mx mn : ℚ) (names : List String),
      renderRows hi lo reset st' mx mn names = renderRows hi lo reset st mx mn names :=
    fun mx mn => renderRows_congr hi lo reset st' st mx mn h3
  simp only [display_table, ← h1, ← h2, h4]

theorem displayMarks_perm (st st' : List (String × Stats))
    (hnd : (st.map Prod.fst).Nodup) (hperm : st.Perm st') :
    displayMarks st' = displayMarks st := by
  have h1 := find_max_min_perm st st' hperm
  have h2 := sortedNames_eq_of_perm st st' hperm
  have h3 : ∀ m, dictLookup m st' = dictLookup m st :=
    fun m => (dictLookup_perm hperm hnd m).symm
  have h4 : ∀ (mx mn : ℚ) (names : List String),
      marksRows st' mx mn names = marksRows st mx mn names :=
    fun mx mn => marksRows_congr st' st mx mn h3
  simp only [displayMarks, ← h1, ← h2, h4]


/-! Further helper lemmas shared by several claim proofs. -/

theorem statsFor_perm (records records' : List (String × Int)) (hperm : records.Perm records')
    (name : String) : statsFor records name = statsFor records' name := by
  have hfp : (filterScores name records).Perm (filterScores name records') :=
    (hperm.filter _).map _
  cases hf1 : filterScores name records with
  | nil =>
    rw [hf1] at hfp
    have h2 : filterScores name records' = [] := hfp.symm.eq_nil
    simp only [statsFor, hf1, h2]
  | cons x xs =>
    cases hf2 : filterScores name records' with
    | nil =>
      rw [hf1, hf2] at hfp
      exact absurd hfp.eq_nil (List.cons_ne_nil x xs)
    | cons y ys =>
      rw [hf1, hf2] at hfp
      simp only [statsFor, hf1, hf2, Option.some.injEq]
      have hsum : (x :: xs).sum = (y :: ys).sum := hfp.sum_eq
      have hlen : (x :: xs).length = (y :: ys).length := hfp.length_eq
      have hmax : xs.foldl max x = ys.foldl max y := foldl_max_perm hfp
      have hmin : xs.foldl min x = ys.foldl min y := foldl_min_perm hfp
      simp [mkStats, hsum, hlen, hmax, hmin]

theorem groupScores_err_of_mem :
    ∀ (data : List Row) (acc : List (String × List Int)),
      (∃ row ∈ data, ∃ e, parseRow row = Except.error e) →
      ∃ e, groupScores data acc = Except.error e := by
  intro data
  induction data with
  | nil =>
    intro acc h
    obtain ⟨row, hrow, _⟩ := h
    simp at hrow
  | cons r rest ih =>
    intro acc h
    obtain ⟨row, hrow, e, herr⟩ := h
    cases hp : parseRow r with
    | error e2 => exact ⟨e2, groupScores_cons_err r rest acc e2 hp⟩
    | ok rec =>
      obtain ⟨n, sc⟩ := rec
      rcases List.mem_cons.mp hrow with rfl | hrow
      · rw [hp] at herr; exact Except.noConfusion herr
      · rw [groupScores_cons_ok r rest acc n sc hp]
        exact ih _ ⟨row, hrow, e, herr⟩

theorem groupScores_append_err :
    ∀ (pre : List Row) (acc : List (String × List Int)),
      (∀ r ∈ pre, ∃ rec, parseRow r = Except.ok rec) →
      ∀ (row : Row) (post : List Row) (e : Err), parseRow row = Except.error e →
        groupScores (pre ++ row :: post) acc = Except.error e := by
  intro pre
  induction pre with
  | nil => intro acc _ row post e herr; exact groupScores_cons_err row post acc e herr
  | cons r rest ih =>
    intro acc hok row post e herr
    obtain ⟨rec, hrec⟩ := hok r (List.mem_cons_self _ _)
    obtain ⟨n, sc⟩ := rec
    rw [List.cons_append, groupScores_cons_ok r (rest ++ row :: post) acc n sc hrec]
    exact ih _ (fun q hq => hok q (List.mem_cons.mpr (Or.inr hq))) row post e herr

theorem exData4_stats : calculate_statistics exData4 = Except.ok exStats4 := by
  have h : groupScores exData4 [] = Except.ok [("Alice", [80, 100]), ("Bob", [90])] := by decide
  simp only [calculate_statistics, h, statsList, statsOfScores, mkStats, exStats4]
  norm_num

theorem goodRow_stats : calculate_statistics [goodRow] = Except.ok [("Dave", ⟨7, 7, 7⟩)] := by
  have h : groupScores [goodRow] [] = Except.ok [("Dave", [7])] := by decide
  simp only [calculate_statistics, h, statsList, statsOfScores, mkStats]
  norm_num

/-! The claims. -/

/-- C1: for every input sequence of records, the aggregator groups the
records by participant name and returns, for each participant, an
average equal to the sum of that participant's scores divided by their
count, a max equal to the largest such score and a min equal to the
smallest; the output has exactly one entry per distinct participant
name of the input. -/
theorem c1_aggregation_correct (data : List Row) (records : List (String × Int))
    (h : rowsDenote data records) :
    ∃ stats, calculate_statistics data = Except.ok stats ∧
      (stats.map Prod.fst).Nodup ∧
      (∀ name, name ∈ stats.map Prod.fst ↔ name ∈ records.map Prod.fst) ∧
      (∀ name stat, dictLookup name stats = some stat →
        stat.average =
          ((filterScores name records).sum : ℚ) / ((filterScores name records).length : ℚ) ∧
        stat.max ∈ filterScores name records ∧
        (∀ s ∈ filterScores name records, s ≤ stat.max) ∧
        stat.min ∈ filterScores name records ∧
        (∀ s ∈ filterScores name records, stat.min ≤ s)) := by
  obtain ⟨stats, hok, hnd, hmem, hlook⟩ := calculate_statistics_char data records h
  refine ⟨stats, hok, hnd, hmem, ?_⟩
  intro name stat hstat
  have hsf : statsFor records name = some stat := by rw [← hlook name]; exact hstat
  cases hfs : filterScores name records with
  | nil =>
    rw [statsFor, hfs] at hsf
    exact Option.noConfusion hsf
  | cons x xs =>
    rw [statsFor, hfs] at hsf
    have hst : stat = mkStats x xs := (Option.some.injEq .. ▸ hsf).symm
    subst hst
    refine ⟨rfl, ?_, ?_, ?_, ?_⟩
    · exact foldl_max_mem xs x
    · exact le_foldl_max xs x
    · exact foldl_min_mem xs x
    · exact foldl_min_le xs x

/-- Witness for C1 at the concrete scenario input. -/
theorem c1_aggregation_correct_witness :
    ∃ stats, calculate_statistics exData4 = Except.ok stats ∧
      (stats.map Prod.fst).Nodup ∧
      (∀ name, name ∈ stats.map Prod.fst ↔ name ∈ exRecords4.map Prod.fst) ∧
      (∀ name stat, dictLookup name stats = some stat →
        stat.average =
          ((filterScores name exRecords4).sum : ℚ) / ((filterScores name exRecords4).length : ℚ) ∧
        stat.max ∈ filterScores name exRecords4 ∧
        (∀ s ∈ filterScores name exRecords4, s ≤ stat.max) ∧
        stat.min ∈ filterScores name exRecords4 ∧
        (∀ s ∈ filterScores name exRecords4, stat.min ≤ s)) :=
  c1_aggregation_correct exData4 exRecords4 (by decide)

/-- C2: every ParticipantStats produced from a nonempty input satisfies
min ≤ average ≤ max. -/
theorem c2_stats_invariant (data : List Row) (stats : List (String × Stats))
    (hne : data ≠ []) (h : calculate_statistics data = Except.ok stats) :
    ∀ name stat, (name, stat) ∈ stats →
      (stat.min : ℚ) ≤ stat.average ∧ stat.average ≤ (stat.max : ℚ) := by
  intro name stat hmem
  cases hg : groupScores data [] with
  | error e =>
    simp only [calculate_statistics, hg] at h
    exact Except.noConfusion h
  | ok gs =>
    simp only [calculate_statistics, hg] at h
    obtain ⟨l, _, hok⟩ := statsList_mem gs stats h (name, stat) hmem
    cases l with
    | nil => exact Except.noConfusion hok
    | cons x xs =>
      have hst : stat = mkStats x xs := by
        have := (Except.ok.injEq (α := Stats) (ε := Err) .. ▸ hok)
        exact this.symm
      subst hst
      exact ⟨foldl_min_le_average x xs, average_le_foldl_max x xs⟩

/-- Witness for C2 at the concrete scenario input. -/
theorem c2_stats_invariant_witness :
    ((Stats.mk 90 100 80).min : ℚ) ≤ (Stats.mk 90 100 80).average ∧
      (Stats.mk 90 100 80).average ≤ ((Stats.mk 90 100 80).max : ℚ) :=
  c2_stats_invariant exData4 exStats4 (by decide) exData4_stats "Alice" (Stats.mk 90 100 80)
    (by decide)

/-- C4: on input rows (Alice, 80), (Bob, 90), (Alice, 100), aggregation
yields Alice with average 90, max 100, min 80 and Bob with average 90,
max 90, min 90, and the rendering marks both rows high and no row
low. -/
theorem c4_scenario :
    calculate_statistics exData4 = Except.ok exStats4 ∧
    displayMarks exStats4 = Except.ok [Mark.high, Mark.high] :=
  ⟨exData4_stats, by decide⟩

/-- C5: aggregating any permutation of a record sequence yields the
same statistics mapping: the same participant-name set and an identical
entry for every name. -/
theorem c5_order_independent (data data' : List Row) (records records' : List (String × Int))
    (h : rowsDenote data records) (h' : rowsDenote data' records')
    (hperm : records.Perm records') :
    ∃ stats stats', calculate_statistics data = Except.ok stats ∧
      calculate_statistics data' = Except.ok stats' ∧
      (stats.map Prod.fst).Perm (stats'.map Prod.fst) ∧
      ∀ name, dictLookup name stats = dictLookup name stats' := by
  obtain ⟨stats, hok, hnd, hmem, hlook⟩ := calculate_statistics_char data records h
  obtain ⟨stats', hok', hnd', hmem', hlook'⟩ := calculate_statistics_char data' records' h'
  refine ⟨stats, stats', hok, hok', ?_, ?_⟩
  · rw [List.perm_ext_iff_of_nodup hnd hnd']
    intro a
    rw [hmem a, hmem' a]
    exact (hperm.map Prod.fst).mem_iff
  · intro name
    rw [hlook name, hlook' name]
    exact statsFor_perm records records' hperm name

/-- Witness for C5: the scenario input against its reversal. -/
theorem c5_order_independent_witness :
    ∃ stats stats', calculate_statistics exData4 = Except.ok stats ∧
      calculate_statistics exData4.reverse = Except.ok stats' ∧
      (stats.map Prod.fst).Perm (stats'.map Prod.fst) ∧
      ∀ name, dictLookup name stats = dictLookup name stats' :=
  c5_order_independent exData4 exData4.reverse exRecords4 exRecords4.reverse
    (by decide) (by decide) (List.reverse_perm exRecords4).symm

/-- C7 counterexample: on a row whose score field is "abc" the loader
succeeds (it performs no parsing); the ValueError arises only inside
calculate_statistics, i.e. during aggregation, not during the load
step. -/
theorem c7_counterexample :
    load_csv_data (some [badRow]) = Except.ok [badRow] ∧
    calculate_statistics [badRow] =
      Except.error (Err.valueError ("invalid literal for int() with base 10: \x27abc\x27")) :=
  ⟨rfl, by decide⟩

/-- C7 amended: the loader returns the rows of an existing file without
validating scores; a non-integer score field makes the aggregation step
fail, so a successful aggregation run parses every row's score. -/
theorem c7_amended_parse_in_aggregation (rows : List Row) :
    load_csv_data (some rows) = Except.ok rows ∧
    (∀ stats, calculate_statistics rows = Except.ok stats →
      ∀ row ∈ rows, ∃ rec, parseRow row = Except.ok rec) := by
  refine ⟨rfl, ?_⟩
  intro stats h row hrow
  cases hg : groupScores rows [] with
  | error e =>
    simp only [calculate_statistics, hg] at h
    exact Except.noConfusion h
  | ok gs => exact groupScores_ok_parses rows [] gs hg row hrow

/-- Witness for the amended C7 at a parseable single-row input. -/
theorem c7_amended_parse_in_aggregation_witness :
    load_csv_data (some [goodRow]) = Except.ok [goodRow] ∧
    (∃ rec, parseRow goodRow = Except.ok rec) :=
  ⟨(c7_amended_parse_in_aggregation [goodRow]).1,
   (c7_amended_parse_in_aggregation [goodRow]).2 [("Dave", ⟨7, 7, 7⟩)] goodRow_stats goodRow
     (by decide)⟩

/-- C8: on an empty statistics mapping the extremes finder fails (with
the error of Python's max() on an empty sequence, the spec's
EmptyDataError) instead of returning a value. -/
theorem c8_empty_mapping_fails :
    find_max_min_average ([] : List (String × Stats)) =
      Except.error (Err.valueError ("max() arg is an empty sequence")) := rfl

/-- C9 counterexample: with the input file missing, the output is not
just the dedicated file-not-found message: a progress line precedes
it. -/
theorem c9_counterexample :
    main "" "" "" none = ["CSVファイルを読み込んでいます..."] ++ fileNotFoundLines ∧
    main "" "" "" none ≠ fileNotFoundLines := by decide

/-- C9 amended: with the input file missing, the output is exactly the
initial progress line followed by the dedicated two-line file-not-found
message; neither the table header nor any separator line is printed. -/
theorem c9_amended_missing_file (hi lo reset : String) :
    main hi lo reset none = ["CSVファイルを読み込んでいます..."] ++ fileNotFoundLines ∧
    headerLine ∉ main hi lo reset none ∧
    sepLine ∉ main hi lo reset none := by
  refine ⟨rfl, ?_, ?_⟩
  · show headerLine ∉ ["CSVファイルを読み込んでいます..."] ++ fileNotFoundLines
    decide
  · show sepLine ∉ ["CSVファイルを読み込んでいます..."] ++ fileNotFoundLines
    decide



/-- C3 counterexample: with averages 90, 90, 50 the maximum and minimum
averages differ (no full tie), yet two rows are marked high, so "exactly
one row is marked high outside a full tie" fails. -/
theorem c3_counterexample :
    find_max_min_average exStats3 = Except.ok (90, 50) ∧
    (90 : ℚ) ≠ 50 ∧
    displayMarks exStats3 = Except.ok [Mark.high, Mark.high, Mark.low] ∧
    ¬ ([Mark.high, Mark.high, Mark.low].count Mark.high = 1) := by decide

/-- C3 amended: every row whose average equals max_average is marked
high, every other row whose average equals min_average is marked low,
all remaining rows are unmarked; at least one row is high, at least one
row is low when the extremes differ, and in a full tie
(max_average = min_average) every row is high and none is low — the
high branch takes precedence for every row. -/
theorem c3_amended_marks (st : List (String × Stats))
    (hne : st ≠ []) (hnd : (st.map Prod.fst).Nodup) :
    ∃ mx mn ms, find_max_min_average st = Except.ok (mx, mn) ∧
      displayMarks st = Except.ok ms ∧
      ms.length = st.length ∧
      List.Forall₂ (fun name m => ∃ stat, dictLookup name st = some stat ∧
        m = markOf stat mx mn) (sortedNames st) ms ∧
      (∀ stat : Stats,
        (stat.average = mx → markOf stat mx mn = Mark.high) ∧
        (stat.average ≠ mx → stat.average = mn → markOf stat mx mn = Mark.low) ∧
        (stat.average ≠ mx → stat.average ≠ mn → markOf stat mx mn = Mark.plain)) ∧
      Mark.high ∈ ms ∧
      (mx ≠ mn → Mark.low ∈ ms) ∧
      (mx = mn → ∀ m ∈ ms, m = Mark.high) := by
  obtain ⟨mx, mn, hf⟩ := find_max_min_ok st hne
  obtain ⟨hmxmem, hmxub, hmnmem, hmnlb⟩ := find_max_min_spec st mx mn hf
  obtain ⟨ms, hms, hfa⟩ := marksRows_ok st mx mn (sortedNames st) (lookup_some_of_mem_sortedNames st)
  refine ⟨mx, mn, ms, hf, ?_, ?_, hfa, ?_, ?_, ?_, ?_⟩
  · simp only [displayMarks, hf]
    exact hms
  · have h1 := List.Forall₂.length_eq hfa
    rw [← h1]
    exact ((sortedNames_perm st).length_eq).trans (List.length_map _ _)
  · intro stat
    refine ⟨?_, ?_, ?_⟩
    · intro hx; simp only [markOf, if_pos hx]
    · intro hx hn; simp only [markOf, if_neg hx, if_pos hn]
    · intro hx hn; simp only [markOf, if_neg hx, if_neg hn]
  · obtain ⟨p, hp, hpavg⟩ := List.mem_map.mp hmxmem
    obtain ⟨name, stat⟩ := p
    have hlook : dictLookup name st = some stat := mem_dictLookup name stat st hnd hp
    have hname : name ∈ sortedNames st :=
      (sortedNames_perm st).mem_iff.mpr (List.mem_map_of_mem Prod.fst hp)
    obtain ⟨m, hm, stat2, hstat2, hmark⟩ := mem_left_of_forallTwo hfa name hname
    rw [hlook] at hstat2
    have hs : stat = stat2 := Option.some.inj hstat2
    subst hs
    have hpavg2 : stat.average = mx := hpavg
    have hhigh : markOf stat mx mn = Mark.high := by simp only [markOf, if_pos hpavg2]
    rw [hmark, hhigh] at hm
    exact hm
  · intro hne2
    obtain ⟨p, hp, hpavg⟩ := List.mem_map.mp hmnmem
    obtain ⟨name, stat⟩ := p
    have hlook : dictLookup name st = some stat := mem_dictLookup name stat st hnd hp
    have hname : name ∈ sortedNames st :=
      (sortedNames_perm st).mem_iff.mpr (List.mem_map_of_mem Prod.fst hp)
    obtain ⟨m, hm, stat2, hstat2, hmark⟩ := mem_left_of_forallTwo hfa name hname
    rw [hlook] at hstat2
    have hs : stat = stat2 := Option.some.inj hstat2
    subst hs
    have hpavg2 : stat.average = mn := hpavg
    have hnmx : stat.average ≠ mx := fun hc => hne2 (hc.symm.trans hpavg2)
    have hlow : markOf stat mx mn = Mark.low := by
      simp only [markOf, if_neg hnmx, if_pos hpavg2]
    rw [hmark, hlow] at hm
    exact hm
  · intro heq m hm
    obtain ⟨name, hname, stat2, hstat2, hmark⟩ := mem_right_of_forallTwo hfa m hm
    have hmem2 : (name, stat2) ∈ st := dictLookup_mem name stat2 st hstat2
    have havg : stat2.average ∈ averagesOf st := List.mem_map_of_mem _ hmem2
    have h1 : stat2.average ≤ mx := hmxub _ havg
    have h2 : mn ≤ stat2.average := hmnlb _ havg
    have h3 : stat2.average = mx := le_antisymm h1 (heq ▸ h2)
    rw [hmark]
    simp only [markOf, if_pos h3]

/-- Witness for the amended C3 at the concrete tie mapping. -/
theorem c3_amended_marks_witness :
    ∃ mx mn ms, find_max_min_average exStats3 = Except.ok (mx, mn) ∧
      displayMarks exStats3 = Except.ok ms ∧
      ms.length = exStats3.length ∧
      List.Forall₂ (fun name m => ∃ stat, dictLookup name exStats3 = some stat ∧
        m = markOf stat mx mn) (sortedNames exStats3) ms ∧
      (∀ stat : Stats,
        (stat.average = mx → markOf stat mx mn = Mark.high) ∧
        (stat.average ≠ mx → stat.average = mn → markOf stat mx mn = Mark.low) ∧
        (stat.average ≠ mx → stat.average ≠ mn → markOf stat mx mn = Mark.plain)) ∧
      Mark.high ∈ ms ∧
      (mx ≠ mn → Mark.low ∈ ms) ∧
      (mx = mn → ∀ m ∈ ms, m = Mark.high) :=
  c3_amended_marks exStats3 (by decide) (by decide)

/-- C6: the rendered table consists of the opening separators and
header, one row per participant in ascending lexicographic name order
regardless of the internal order of the mapping, and the closing
separator and legend; each row is the colour prefix, the four
left-justified space-padded columns of widths 20, 15, 15, 15 (name,
average formatted to one decimal place, max, min) separated by single
spaces, and the colour suffix. -/
theorem c6_render_sorted_table (hi lo reset : String) (st st' : List (String × Stats))
    (hne : st ≠ []) (hnd : (st.map Prod.fst).Nodup) (hperm : st.Perm st') :
    ∃ mx mn rows,
      find_max_min_average st = Except.ok (mx, mn) ∧
      display_table hi lo reset st =
        Except.ok (["\n" ++ sepLine, headerLine, sepLine] ++ rows ++ legendLines hi lo reset) ∧
      List.Sorted pyStrLe (sortedNames st) ∧
      (sortedNames st).Perm (st.map Prod.fst) ∧
      List.Forall₂ (fun name r => ∃ stat, dictLookup name st = some stat ∧
        r = rowLine hi lo reset name stat mx mn) (sortedNames st) rows ∧
      (∀ (name : String) (stat : Stats), rowLine hi lo reset name stat mx mn =
        (if stat.average = mx then hi else if stat.average = mn then lo else "") ++
        ljust name 20 ++ " " ++ ljust (format_score stat.average) 15 ++ " " ++
        ljust (toString stat.max) 15 ++ " " ++ ljust (toString stat.min) 15 ++
        (if stat.average = mx then reset else if stat.average = mn then reset else "")) ∧
      (∀ q : ℚ, ∃ (w : String) (d : Nat), d < 10 ∧
        format_score q = w ++ "." ++ toString d) ∧
      display_table hi lo reset st' = display_table hi lo reset st := by
  obtain ⟨mx, mn, hf⟩ := find_max_min_ok st hne
  obtain ⟨rows, hrows, hfa⟩ :=
    renderRows_ok hi lo reset st mx mn (sortedNames st) (lookup_some_of_mem_sortedNames st)
  refine ⟨mx, mn, rows, hf, ?_, sortedNames_sorted st, sortedNames_perm st, hfa, ?_, ?_,
    display_table_perm hi lo reset st st' hnd hperm⟩
  · simp only [display_table, hf, hrows]
  · intro name stat
    rfl
  · intro q
    refine ⟨(if roundHalfEven (q * 10) < 0 then "-" else "") ++
      toString ((roundHalfEven (q * 10)).natAbs / 10),
      (roundHalfEven (q * 10)).natAbs % 10, ?_, rfl⟩
    exact Nat.mod_lt _ (by norm_num)

/-- Witness for C6 at the concrete tie mapping against its reversal. -/
theorem c6_render_sorted_table_witness :
    ∃ mx mn rows,
      find_max_min_average exStats3 = Except.ok (mx, mn) ∧
      display_table "" "" "" exStats3 =
        Except.ok (["\n" ++ sepLine, headerLine, sepLine] ++ rows ++ legendLines "" "" "") ∧
      List.Sorted pyStrLe (sortedNames exStats3) ∧
      (sortedNames exStats3).Perm (exStats3.map Prod.fst) ∧
      List.Forall₂ (fun name r => ∃ stat, dictLookup name exStats3 = some stat ∧
        r = rowLine "" "" "" name stat mx mn) (sortedNames exStats3) rows ∧
      (∀ (name : String) (stat : Stats), rowLine "" "" "" name stat mx mn =
        (if stat.average = mx then "" else if stat.average = mn then "" else "") ++
        ljust name 20 ++ " " ++ ljust (format_score stat.average) 15 ++ " " ++
        ljust (toString stat.max) 15 ++ " " ++ ljust (toString stat.min) 15 ++
        (if stat.average = mx then "" else if stat.average = mn then "" else "")) ∧
      (∀ q : ℚ, ∃ (w : String) (d : Nat), d < 10 ∧
        format_score q = w ++ "." ++ toString d) ∧
      display_table "" "" "" exStats3.reverse = display_table "" "" "" exStats3 :=
  c6_render_sorted_table "" "" "" exStats3 exStats3.reverse (by decide) (by decide)
    (List.reverse_perm exStats3).symm

/-- C10: a loaded row lacking the 名前 key or the スコア key makes the
aggregation fail with the KeyError of the dict subscript, and the run
ends in the generic error message, not in the dedicated file-not-found
message. -/
theorem c10_missing_key (hi lo reset : String) (data : List Row) (row : Row)
    (hmem : row ∈ data)
    (hmiss : dictLookup ("名前") row = none ∨ dictLookup ("スコア") row = none) :
    (∃ e, calculate_statistics data = Except.error e) ∧
    (∀ pre post, data = pre ++ row :: post →
      (∀ r ∈ pre, ∃ rec, parseRow r = Except.ok rec) →
      ∃ k, (k = "名前" ∨ k = "スコア") ∧
        calculate_statistics data = Except.error (Err.keyError k) ∧
        main hi lo reset (some data) =
          ["CSVファイルを読み込んでいます...",
           "データを " ++ toString data.length ++ " 件読み込みました。",
           "統計情報を計算しています...",
           "エラーが発生しました: " ++ errDesc (Err.keyError k)] ∧
        main hi lo reset (some data) ≠
          ["CSVファイルを読み込んでいます..."] ++ fileNotFoundLines) := by
  have hrowerr : ∃ k, (k = "名前" ∨ k = "スコア") ∧
      parseRow row = Except.error (Err.keyError k) := by
    cases hn : dictLookup ("名前") row with
    | none => exact ⟨"名前", Or.inl rfl, by simp only [parseRow, dictGet, hn]⟩
    | some v =>
      rcases hmiss with hm | hm
      · rw [hn] at hm; exact Option.noConfusion hm
      · exact ⟨"スコア", Or.inr rfl, by simp only [parseRow, dictGet, hn, hm]⟩
  obtain ⟨k, hk, herr⟩ := hrowerr
  constructor
  · obtain ⟨e, hge⟩ := groupScores_err_of_mem data []
      ⟨row, hmem, Err.keyError k, herr⟩
    exact ⟨e, by simp only [calculate_statistics, hge]⟩
  · intro pre post hdata hpre
    have hgs : groupScores data [] = Except.error (Err.keyError k) := by
      rw [hdata]
      exact groupScores_append_err pre [] hpre row post (Err.keyError k) herr
    have hcalc : calculate_statistics data = Except.error (Err.keyError k) := by
      simp only [calculate_statistics, hgs]
    have hmain : main hi lo reset (some data) =
        ["CSVファイルを読み込んでいます...",
         "データを " ++ toString data.length ++ " 件読み込みました。",
         "統計情報を計算しています...",
         "エラーが発生しました: " ++ errDesc (Err.keyError k)] := by
      simp only [main, load_csv_data, hcalc, handleErr]
      rfl
    refine ⟨k, hk, hcalc, hmain, ?_⟩
    rw [hmain]
    intro hc
    have hlen := congrArg List.length hc
    simp [fileNotFoundLines] at hlen

/-- Witness for C10 at a single row that lacks the 名前 key. -/
theorem c10_missing_key_witness :
    ∃ k, (k = "名前" ∨ k = "スコア") ∧
      calculate_statistics [[("スコア", "50")]] = Except.error (Err.keyError k) ∧
      main "" "" "" (some [[("スコア", "50")]]) =
        ["CSVファイルを読み込んでいます...",
         "データを " ++ toString ([[("スコア", "50")]] : List Row).length ++ " 件読み込みました。",
         "統計情報を計算しています...",
         "エラーが発生しました: " ++ errDesc (Err.keyError k)] ∧
      main "" "" "" (some [[("スコア", "50")]]) ≠
        ["CSVファイルを読み込んでいます..."] ++ fileNotFoundLines :=
  (c10_missing_key "" "" "" [[("スコア", "50")]] [("スコア", "50")] (by decide)
    (Or.inl (by decide))).2 [] [] rfl (by intro r hr; simp at hr)


end Scores
